import Mathlib

/-!
Verification development for the `simple-codemod-script` repository:
a codemod runner that parses each source file into an AST, applies a named
transform that mutates the AST in place, and reprints the tree while
preserving the original formatting of untouched nodes.

Embedded here:
* the AST node kinds used by the repository's codemod
  (`codemods/react-to-star-import.ts`), as a tagged variant;
* the codemod itself, translated from the source loops into a pure function
  (in-place mutation becomes returning the new statement, paired with a
  `Bool` recording whether any write to that statement occurred — recast's
  ambient change tracking made explicit, as the spec's design notes suggest);
* the transform registry (`codemods/index.ts`) and the error messages of
  `run-codemod.ts`;
* a parse/print model for the external recast/babel layer, modelled from the
  spec (SourceParser / Printer, §4.1 and §4.4): the parser keeps each
  statement's original text slice, and the printer copies that slice for
  untouched statements and pretty-prints mutated ones;
* the batch driver `main` of `run-codemod.ts` over an explicit file-system
  value.
-/

/-- Babel `Identifier` node: carries the bound name. -/
structure Ident where
  name : String
deriving DecidableEq

/-- The import specifier node kinds of the babel AST that the codemod
dispatches on: `ImportDefaultSpecifier`, `ImportSpecifier` (named) and
`ImportNamespaceSpecifier`. Each carries its `local` identifier; a named
specifier also carries the `imported` identifier. -/
inductive Specifier where
  | importDefaultSpecifier (localIdent : Ident)
  | importSpecifier (imported : Ident) (localIdent : Ident)
  | importNamespaceSpecifier (localIdent : Ident)
deriving DecidableEq

/-- The literal node in an import declaration's `source` position. Babel
always produces a `StringLiteral` there; the codemod nevertheless checks the
node's type tag, so the variant keeps an `other` case. -/
inductive Lit where
  | stringLiteral (value : String)
  | otherLiteral
deriving DecidableEq

/-- A top-level statement of a `Program` body: an `ImportDeclaration`
(source literal plus specifier list) or any other statement kind, which the
codemod never inspects. -/
inductive Stmt where
  | importDeclaration (source : Lit) (specifiers : List Specifier)
  | otherStatement
deriving DecidableEq

/-- Babel `Program` node: the ordered statement body. -/
structure Program where
  body : List Stmt
deriving DecidableEq

/-- One iteration of the inner loop of `codemods/react-to-star-import.ts`:
`specifiers[i]` is overwritten with `t.importNamespaceSpecifier(specifier.local)`
exactly when it is an `ImportDefaultSpecifier`. The `Bool` records whether
that write happened. -/
def replaceSpecifier (s : Specifier) : Specifier × Bool :=
  match s with
  | .importDefaultSpecifier localIdent => (.importNamespaceSpecifier localIdent, true)
  | s => (s, false)

/-- One iteration of the outer loop of `codemods/react-to-star-import.ts`:
an `ImportDeclaration` whose source is the string literal `"react"` has each
default specifier replaced in place; every other statement is left alone.
The `Bool` records whether any write occurred inside the statement. -/
def codemodStmt (st : Stmt) : Stmt × Bool :=
  match st with
  | .importDeclaration src specifiers =>
    match src with
    | .stringLiteral v =>
      if v = "react" then
        let rs := specifiers.map replaceSpecifier
        (.importDeclaration src (rs.map Prod.fst), rs.any Prod.snd)
      else (.importDeclaration src specifiers, false)
    | .otherLiteral => (.importDeclaration src specifiers, false)
  | st => (st, false)

/-- The exported function of `codemods/react-to-star-import.ts`. The source
mutates `ast.body` in place; here the new body is returned, each statement
paired with the flag saying whether it was written to. `filepath` and
`source` are received (per the registry's transform contract) and unused,
as in the source. -/
def codemod (ast : Program) (_filepath : String) (_source : String) :
    List (Stmt × Bool) :=
  ast.body.map codemodStmt

/-- The registry object of `codemods/index.ts`: one entry keyed
`"react-to-star-import"`. -/
def codemods : List (String × (Program → String → String → List (Stmt × Bool))) :=
  [("react-to-star-import", codemod)]

/-- `Object.keys(codemods)`. -/
def codemodNames : List String := codemods.map Prod.fst

/-- The lookup `codemods[codemodName]` of `run-codemod.ts`. -/
def lookupCodemod (name : String) :
    Option (Program → String → String → List (Stmt × Bool)) :=
  (codemods.find? (fun e => e.1 = name)).map Prod.snd

/-- Message of the error thrown by `transformFile` in `run-codemod.ts` when
`codemods[codemodName]` is undefined. -/
def noSuchCodemodMsg (name : String) : String :=
  "No such codemod: " ++ name ++ ". Valid codemod names: " ++
    String.intercalate ", " codemodNames ++ "."

/-- Message of the error thrown by `main` in `run-codemod.ts` when no
codemod name is given on the command line. -/
def noCodemodArgMsg : String :=
  "You must specify a codemod to run as the first command-line argument. Valid codemod names: " ++
    String.intercalate ", " codemodNames ++ "."

/-! ### Parser model (SourceParser)

The real parser is the external `@babel/parser` wrapped by recast, so it is
not code of this repository. It is modelled from the spec: `parse(source,
filePath) -> SyntaxTree`, failing with a `ParseError` on text outside the
accepted grammar, and retaining per node the original-text boundary
information the printer needs: a parsed statement is a list of segments in
source order — fixed statement text (keywords, punctuation, whitespace)
and one segment per specifier node and per source-literal node, each
carrying that node's exact original slice. The modelled grammar covers
the import declarations the codemod dispatches on. -/

/-- The opening-brace character of a named-import group. -/
def lbrace : Char := Char.ofNat 123

/-- The closing-brace character of a named-import group. -/
def rbrace : Char := Char.ofNat 125

/-- Whitespace characters skipped between tokens. -/
def isWsChar (c : Char) : Bool :=
  c = ' ' || c = '\n' || c = '\t' || c = '\r'

/-- Identifier characters. -/
def isIdentChar (c : Char) : Bool :=
  c.isAlpha || c.isDigit || c = '_' || c = '$'

/-- Consume leading whitespace, returning the consumed run and the rest. -/
def skipWs (input : List Char) : List Char × List Char :=
  (input.takeWhile isWsChar, input.dropWhile isWsChar)

/-- Modelled from the spec: consume an exact token; the rest is returned on
success. -/
def expectTok : List Char → List Char → Except String (List Char)
  | [], input => .ok input
  | _ :: _, [] => .error "unexpected end of input"
  | t :: ts, c :: cs =>
    if t = c then expectTok ts cs else .error "unexpected token"

/-- Modelled from the spec: consume a (nonempty) identifier. -/
def parseIdent (input : List Char) : Except String (Ident × List Char) :=
  match input.takeWhile isIdentChar with
  | [] => .error "expected identifier"
  | nm => .ok (⟨String.mk nm⟩, input.dropWhile isIdentChar)

/-- Modelled from the spec: consume a double-quoted string literal with no
escape sequences; yields its value. -/
def parseStringLit (input : List Char) : Except String (String × List Char) :=
  match input with
  | c :: rest =>
    if c = '\"' then
      match rest.dropWhile (fun d => !(d = '\"')) with
      | d :: rest2 =>
        if d = '\"' then
          .ok (String.mk (rest.takeWhile (fun d => !(d = '\"'))), rest2)
        else .error "unterminated string literal"
      | [] => .error "unterminated string literal"
    else .error "expected string literal"
  | [] => .error "expected string literal"

/-- A segment of a parsed statement's original text, in source order:
fixed frame text, a specifier node with its original slice, or the source
literal node with its original slice. Every AST node the transform can
touch carries its own span this way, as the spec's data model requires. -/
inductive Seg where
  | fixed (t : List Char)
  | spec (t : List Char) (node : Specifier)
  | lit (t : List Char) (node : Lit)
deriving DecidableEq

/-- The original text of a segment. -/
def Seg.text : Seg → List Char
  | .fixed t => t
  | .spec t _ => t
  | .lit t _ => t

/-- The original text covered by a segment list. -/
def segsText (segs : List Seg) : List Char := (segs.map Seg.text).flatten

/-- The specifier nodes of a segment list, in source order. -/
def segsSpecs (segs : List Seg) : List Specifier :=
  segs.filterMap fun s =>
    match s with
    | .spec _ nd => some nd
    | _ => none

/-- The source-literal node of a segment list (a parsed import declaration
carries exactly one). -/
def segsLit (segs : List Seg) : Lit :=
  match segs.filterMap
      (fun s => match s with | .lit _ nd => some nd | _ => none) with
  | nd :: _ => nd
  | [] => .otherLiteral

/-- Whether a segment is a specifier node. -/
def isSpecSeg : Seg → Bool
  | .spec _ _ => true
  | _ => false

/-- Modelled from the spec: the comma-separated identifier list inside a
named-import brace group, already past the opening brace; yields the
segments covering the consumed text, one `spec` segment per name (no `as`
renaming in the modelled grammar). -/
def parseNamed (fuel : Nat) (input : List Char) :
    Except String (List Seg × List Char) :=
  match fuel with
  | 0 => .error "parser fuel exhausted"
  | fuel + 1 =>
    match (skipWs input).2 with
    | [] => .error "unterminated named import list"
    | c :: cs =>
      if c = rbrace then .ok ([.fixed ((skipWs input).1 ++ [rbrace])], cs)
      else
        match parseIdent ((skipWs input).2) with
        | .error e => .error e
        | .ok (id, r2) =>
          match (skipWs r2).2 with
          | [] => .error "unterminated named import list"
          | d :: ds =>
            if d = ',' then
              match parseNamed fuel ds with
              | .error e => .error e
              | .ok (more, r4) =>
                .ok (.fixed (skipWs input).1 ::
                  .spec id.name.toList (.importSpecifier id id) ::
                  .fixed ((skipWs r2).1 ++ [',']) :: more, r4)
            else if d = rbrace then
              .ok ([.fixed (skipWs input).1,
                .spec id.name.toList (.importSpecifier id id),
                .fixed ((skipWs r2).1 ++ [rbrace])], ds)
            else .error "expected comma or closing brace"

/-- Modelled from the spec: one import specifier group — a namespace
form `* as x`, a named group in braces, or a default import identifier —
as segments covering the consumed text. -/
def parseSpecGroup (fuel : Nat) (input : List Char) :
    Except String (List Seg × List Char) :=
  match input with
  | [] => .error "expected import specifier"
  | c :: cs =>
    if c = '*' then
      if ((skipWs cs).1).isEmpty then .error "expected space after star"
      else
        match expectTok ['a', 's'] ((skipWs cs).2) with
        | .error e => .error e
        | .ok r2 =>
          if ((skipWs r2).1).isEmpty then .error "expected space after as"
          else
            match parseIdent ((skipWs r2).2) with
            | .error e => .error e
            | .ok (id, r4) =>
              .ok ([.spec ('*' :: ((skipWs cs).1 ++ ['a', 's'] ++
                  (skipWs r2).1 ++ id.name.toList))
                  (.importNamespaceSpecifier id)], r4)
    else if c = lbrace then
      match parseNamed fuel cs with
      | .error e => .error e
      | .ok (segs, r) => .ok (.fixed [lbrace] :: segs, r)
    else
      match parseIdent input with
      | .error e => .error e
      | .ok (id, r) =>
        .ok ([.spec id.name.toList (.importDefaultSpecifier id)], r)

/-- Modelled from the spec: the full specifier list — groups separated by
commas — as segments covering the consumed text. Whitespace before a
separating comma is consumed only when the comma is present. -/
def parseSpecifiers (fuel : Nat) (input : List Char) :
    Except String (List Seg × List Char) :=
  match fuel with
  | 0 => .error "parser fuel exhausted"
  | fuel + 1 =>
    match parseSpecGroup fuel input with
    | .error e => .error e
    | .ok (g, r1) =>
      match (skipWs r1).2 with
      | c :: cs =>
        if c = ',' then
          match parseSpecifiers fuel ((skipWs cs).2) with
          | .error e => .error e
          | .ok (more, r4) =>
            .ok (g ++ .fixed ((skipWs r1).1 ++ ',' :: (skipWs cs).1) ::
              more, r4)
        else .ok (g, r1)
      | [] => .ok (g, r1)

/-- Modelled from the spec: one import declaration,
`import <specifiers> from "<module>";`, as segments covering exactly the
consumed text: fixed frame text, one segment per specifier node, one for
the source string literal. -/
def parseImport (fuel : Nat) (input : List Char) :
    Except String (List Seg × List Char) :=
  match expectTok "import".toList input with
  | .error e => .error e
  | .ok r1 =>
    if ((skipWs r1).1).isEmpty then .error "expected space after import"
    else
      match parseSpecifiers fuel ((skipWs r1).2) with
      | .error e => .error e
      | .ok (specSegs, r3) =>
        match expectTok "from".toList ((skipWs r3).2) with
        | .error e => .error e
        | .ok r5 =>
          match parseStringLit ((skipWs r5).2) with
          | .error e => .error e
          | .ok (v, r7) =>
            match (skipWs r7).2 with
            | c :: r9 =>
              if c = ';' then
                .ok (.fixed ("import".toList ++ (skipWs r1).1) ::
                  specSegs ++
                  [.fixed ((skipWs r3).1 ++ "from".toList ++ (skipWs r5).1),
                   .lit ('\"' :: v.toList ++ ['\"']) (.stringLiteral v),
                   .fixed ((skipWs r7).1 ++ [';'])], r9)
              else .error "expected semicolon"
            | [] => .error "expected semicolon"

/-- A parsed statement: its segments, in source order, carrying each
node's original slice and the fixed text between nodes. -/
structure PStmt where
  segs : List Seg
deriving DecidableEq

/-- The statement's full original slice. -/
def PStmt.text (ps : PStmt) : List Char := segsText ps.segs

/-- The statement's AST node, rebuilt from its node segments. -/
def PStmt.node (ps : PStmt) : Stmt :=
  .importDeclaration (segsLit ps.segs) (segsSpecs ps.segs)

/-- A parsed file: the statement list plus the trailing trivia after the
last statement. -/
structure PFile where
  stmts : List PStmt
  trailing : List Char
deriving DecidableEq

/-- Modelled from the spec: the statement loop of the parser. Each parsed
statement's segments cover exactly the characters consumed for it (leading
trivia included, as a fixed segment); the leftover trailing trivia is
returned last. -/
def parseStmtsFuel (fuel : Nat) (input : List Char) :
    Except String (List PStmt × List Char) :=
  match fuel with
  | 0 => .error "parser fuel exhausted"
  | fuel + 1 =>
    match (skipWs input).2 with
    | [] => .ok ([], (skipWs input).1)
    | r1@(_ :: _) =>
      if ("import".toList).isPrefixOf r1 then
        match parseImport (input.length + 1) r1 with
        | .error e => .error e
        | .ok (segs, r2) =>
          match parseStmtsFuel fuel r2 with
          | .error e => .error e
          | .ok (more, trailing) =>
            .ok (⟨.fixed (skipWs input).1 :: segs⟩ :: more, trailing)
      else .error "unsupported syntax"

/-- Parse failure record: the spec's `ParseError`, carrying the file path
and the parser's message. -/
structure ParseError where
  path : String
  msg : String
deriving DecidableEq

/-- Modelled from the spec: `parse(source, filePath) -> SyntaxTree`, failing
with `ParseError` when the text is outside the accepted grammar. -/
def parseFile (filepath : String) (source : List Char) :
    Except ParseError PFile :=
  match parseStmtsFuel (source.length + 1) source with
  | .ok (stmts, trailing) => .ok ⟨stmts, trailing⟩
  | .error m => .error ⟨filepath, m⟩

/-! ### Printer model (Printer)

Reprinting is done by the external recast library; it is modelled from the
spec (§4.4 and the §9 arena/flag design note): a statement the transform
never wrote to prints as its original slice, byte for byte; inside a
written statement the printer patches node by node — fixed frame text
always keeps its original bytes, and the literal and every specifier that
still equals the node parsed at that position keep their original slices
(whitespace and quote style included), while only replaced nodes are
rendered in a canonical default formatting. -/

/-- Canonical rendering of a named specifier (no renaming: just the name). -/
def namedFrag (imported localIdent : Ident) : String :=
  if imported = localIdent then imported.name
  else imported.name ++ " as " ++ localIdent.name

/-- Modelled from the spec: canonical fragments of a specifier list —
default and namespace specifiers in order, then the named specifiers
gathered into one brace group. -/
def specFragments (specs : List Specifier) : List String :=
  let named := specs.filterMap fun s =>
    match s with
    | .importSpecifier imp localIdent => some (namedFrag imp localIdent)
    | _ => none
  let others := specs.filterMap fun s =>
    match s with
    | .importDefaultSpecifier localIdent => some localIdent.name
    | .importNamespaceSpecifier localIdent => some ("* as " ++ localIdent.name)
    | _ => none
  others ++
    (if named.isEmpty then []
     else ["\x7b " ++ String.intercalate ", " named ++ " \x7d"])

/-- Canonical rendering of the source literal of an import declaration
(babel always produces a string literal there). -/
def prettyLit : Lit → String
  | .stringLiteral v => "\"" ++ v ++ "\""
  | .otherLiteral => "0"

/-- Modelled from the spec: canonical default formatting for a wholly
resynthesized statement (used only when a transform restructured the
specifier list beyond positional patching). -/
def prettyStmt : Stmt → List Char
  | .importDeclaration src specs =>
    ("import " ++ String.intercalate ", " (specFragments specs) ++
      " from " ++ prettyLit src ++ ";").toList
  | .otherStatement => []

/-- Canonical default formatting for a single synthesized specifier node. -/
def prettySpec : Specifier → List Char
  | .importDefaultSpecifier localIdent => localIdent.name.toList
  | .importNamespaceSpecifier localIdent =>
    ("* as " ++ localIdent.name).toList
  | .importSpecifier imp localIdent => (namedFrag imp localIdent).toList

/-- Modelled from the spec: the per-segment output pieces of a written
statement. Fixed text is copied; the literal and each specifier (consumed
positionally, in source order) keep their original slice when the new node
equals the parsed one, and are rendered canonically otherwise. -/
def printSegPieces : List Seg → Lit → List Specifier → List (List Char)
  | [], _, _ => []
  | .fixed t :: rest, lit2, sps => t :: printSegPieces rest lit2 sps
  | .lit t nd :: rest, lit2, sps =>
    (if lit2 = nd then t else (prettyLit lit2).toList) ::
      printSegPieces rest lit2 sps
  | .spec t _ :: rest, lit2, [] => t :: printSegPieces rest lit2 []
  | .spec t nd :: rest, lit2, sp2 :: sps =>
    (if sp2 = nd then t else prettySpec sp2) :: printSegPieces rest lit2 sps

/-- Modelled from the spec: print a written statement by patching its
segments node by node. -/
def printSegs (segs : List Seg) (lit2 : Lit) (specs2 : List Specifier) :
    List Char :=
  (printSegPieces segs lit2 specs2).flatten

/-- Modelled from the spec: print one statement given the transform's
result for it — the original slice when untouched; node-by-node patching
when written to while the specifier list still aligns positionally;
canonical reprinting (keeping the leading trivia) when the statement was
restructured. -/
def printStmtResult (ps : PStmt) (r : Stmt × Bool) : List Char :=
  if r.2 then
    match r.1 with
    | .importDeclaration lit2 specs2 =>
      if specs2.length = (segsSpecs ps.segs).length then
        printSegs ps.segs lit2 specs2
      else (PStmt.text ps).takeWhile isWsChar ++ prettyStmt r.1
    | st => (PStmt.text ps).takeWhile isWsChar ++ prettyStmt st
  else PStmt.text ps

/-- Modelled from the spec: `print(tree) -> string` over the whole file. -/
def printFile (pf : PFile) (results : List (Stmt × Bool)) : List Char :=
  (List.zipWith printStmtResult pf.stmts results).flatten ++ pf.trailing

/-! ### The pipeline and the batch driver of `run-codemod.ts` -/

/-- The errors that can abort a run. -/
inductive RunError where
  | parseFailure (e : ParseError)
  | generic (msg : String)
  | ioFailure (path : String)
deriving DecidableEq

/-- Whether a run error is a parse error. -/
def RunError.isParseFailure : RunError → Bool
  | .parseFailure _ => true
  | _ => false

/-- The message reported for a run error (the model of `err.stack`'s
message line). -/
def RunError.message : RunError → String
  | .parseFailure e => e.msg
  | .generic m => m
  | .ioFailure p => "ENOENT: no such file " ++ p

/-- The `transformFile` function of `run-codemod.ts`: parse the source,
then look up the codemod — the lookup happens after the parse, exactly as
in the source — then run it over the program body and print the tree. -/
def transformFile (codemodName filepath : String) (source : List Char) :
    Except RunError (List Char) :=
  match parseFile filepath source with
  | .error e => .error (.parseFailure e)
  | .ok pf =>
    match lookupCodemod codemodName with
    | none => .error (.generic (noSuchCodemodMsg codemodName))
    | some cm =>
      .ok (printFile pf (cm ⟨pf.stmts.map PStmt.node⟩ filepath (String.mk source)))

/-- The file system visible to the runner: an association of paths to
contents. -/
abbrev FS := List (String × List Char)

/-- `fs.readFileSync`: the content at a path, if the file exists. -/
def FS.read (fs : FS) (p : String) : Option (List Char) :=
  (List.find? (fun e => e.1 = p) fs).map Prod.snd

/-- `fs.writeFileSync`: replace the content at a path (create if absent). -/
def FS.write : FS → String → List Char → FS
  | [], p, v => [(p, v)]
  | (q, w) :: rest, p, v =>
    if q = p then (p, v) :: rest else (q, w) :: FS.write rest p v

/-- The per-file loop of `main` in `run-codemod.ts`: for each file in order,
read it, log the before text, transform, log the after text, overwrite the
file with the printed text. The first error aborts the loop at once; the
failing file is never written. -/
def runFiles (codemodName : String) (files : List String) (fs : FS)
    (log : List String) : FS × List String × Option RunError :=
  match files with
  | [] => (fs, log, none)
  | f :: rest =>
    match fs.read f with
    | none => (fs, log, some (.ioFailure f))
    | some src =>
      let log1 := log ++ ["Transforming: " ++ f, "--- Before: ---", String.mk src]
      match transformFile codemodName f src with
      | .error e => (fs, log1, some e)
      | .ok out =>
        runFiles codemodName rest (fs.write f out)
          (log1 ++ ["--- After: ---", String.mk out, "------"])

/-- Outcome of one process invocation: final file system, exit status, and
the stdout / stderr logs. -/
structure RunOutcome where
  fs : FS
  exitCode : Nat
  stdoutLog : List String
  errLog : List String
deriving DecidableEq

/-- The whole script: `main` wrapped in the top-level `try/catch` of
`run-codemod.ts`. The catch block logs `"Codemod failed:"` followed by the
error's stack (modelled by its message) and lets the process end normally,
so the exit status is 0 in every case. `argv2` is the codemod-name
command-line argument; `files` is the ordered list the glob resolved to. -/
def mainTop (argv2 : Option String) (files : List String) (fs : FS) :
    RunOutcome :=
  let startLog := ["--- Starting codemod run. ---"]
  match argv2 with
  | none => ⟨fs, 0, startLog, ["Codemod failed:", noCodemodArgMsg]⟩
  | some name =>
    match runFiles name files fs startLog with
    | (fs1, log, none) => ⟨fs1, 0, log ++ ["All done!"], []⟩
    | (fs1, log, some e) => ⟨fs1, 0, log, ["Codemod failed:", RunError.message e]⟩

/-- A transform that mutates nothing: every statement kept, no write
recorded. Used to state the spec's identity round trip. -/
def noopCodemod (ast : Program) (_filepath _source : String) :
    List (Stmt × Bool) :=
  ast.body.map (fun s => (s, false))

/-- Whether a specifier is an `ImportDefaultSpecifier`. -/
def Specifier.isDefault : Specifier → Bool
  | .importDefaultSpecifier _ => true
  | _ => false

/-- A statement holds no `ImportDefaultSpecifier` inside an import
declaration from `"react"`. -/
def stmtNoReactDefault : Stmt → Bool
  | .importDeclaration (.stringLiteral v) specs =>
    if v = "react" then specs.all fun sp => !sp.isDefault else true
  | _ => true

/-- No `ImportDefaultSpecifier` occurs in any import declaration from
`"react"` — the state of a program after one run of the codemod. -/
def noReactDefault (body : List Stmt) : Bool :=
  body.all stmtNoReactDefault

/-- A sample source text used to instantiate the general theorems. -/
def sampleSource : List Char := "import React from \"react\";".toList

/-- The parse of `sampleSource`: one statement whose segments carry the
slice of every node. -/
def samplePF : PFile :=
  ⟨[⟨[.fixed [], .fixed "import ".toList,
      .spec "React".toList (.importDefaultSpecifier ⟨"React"⟩),
      .fixed " from ".toList,
      .lit "\"react\"".toList (.stringLiteral "react"),
      .fixed ";".toList]⟩], []⟩

/-- A sample already-transformed source text. -/
def sampleStarSource : List Char := "import * as React from \"react\";".toList

/-- The parse of `sampleStarSource`. -/
def sampleStarPF : PFile :=
  ⟨[⟨[.fixed [], .fixed "import ".toList,
      .spec "* as React".toList (.importNamespaceSpecifier ⟨"React"⟩),
      .fixed " from ".toList,
      .lit "\"react\"".toList (.stringLiteral "react"),
      .fixed ";".toList]⟩], []⟩

/-- A transform result for `samplePF` that replaces its one statement. -/
def sampleResults : List (Stmt × Bool) :=
  [(.importDeclaration (.stringLiteral "react")
      [.importNamespaceSpecifier ⟨"React"⟩], true)]

/-- A sample file system for batch-run instantiations: a good file, a file
that does not parse, and another good file. -/
def sampleFS : FS :=
  [("a.ts", sampleSource), ("b.ts", "blah".toList),
   ("c.ts", "import * as ns from \"x\";".toList)]

/-- The error produced by the sample bad file. -/
def sampleBadErr : RunError := .parseFailure ⟨"b.ts", "unsupported syntax"⟩

/-! ## Lemmas and theorems -/

/-! ### Parser invariants: the segments reconstruct the input -/

theorem skipWs_append (input : List Char) :
    (skipWs input).1 ++ (skipWs input).2 = input := by
  simp [skipWs]

theorem expectTok_append :
    ∀ tok input rest, expectTok tok input = .ok rest → tok ++ rest = input := by
  intro tok
  induction tok with
  | nil =>
    intro input rest h
    simp only [expectTok, Except.ok.injEq] at h
    simp [h]
  | cons t ts ih =>
    intro input rest h
    cases input with
    | nil => simp [expectTok] at h
    | cons c cs =>
      simp only [expectTok] at h
      split at h
      · rename_i heq
        have h2 := ih cs rest h
        simp [heq, h2]
      · cases h

theorem segsText_nil : segsText [] = [] := rfl

theorem segsText_cons (s : Seg) (rest : List Seg) :
    segsText (s :: rest) = s.text ++ segsText rest := by
  simp [segsText]

theorem segsText_append (a b : List Seg) :
    segsText (a ++ b) = segsText a ++ segsText b := by
  simp [segsText]

theorem parseIdent_cover (input : List Char) (id : Ident) (rest : List Char)
    (h : parseIdent input = .ok (id, rest)) :
    id.name.toList ++ rest = input := by
  unfold parseIdent at h
  split at h
  · cases h
  · rename_i heq
    simp only [Except.ok.injEq, Prod.mk.injEq] at h
    rw [← h.1, ← h.2]
    show (String.mk (input.takeWhile isIdentChar)).toList ++
      input.dropWhile isIdentChar = input
    have h2 : (String.mk (input.takeWhile isIdentChar)).toList =
        input.takeWhile isIdentChar := rfl
    rw [h2]
    simp

theorem parseStringLit_cover (input : List Char) (v : String)
    (rest : List Char) (h : parseStringLit input = .ok (v, rest)) :
    '\"' :: (v.toList ++ '\"' :: rest) = input := by
  unfold parseStringLit at h
  cases input with
  | nil => cases h
  | cons c r =>
    simp only at h
    split at h
    · rename_i hc
      split at h
      · rename_i d rest2 heqd
        split at h
        · rename_i hd
          simp only [Except.ok.injEq, Prod.mk.injEq] at h
          rw [← h.1, ← h.2]
          subst hc
          subst hd
          have h3 : (String.mk (r.takeWhile (fun e => !(e = '\"')))).toList
              = r.takeWhile (fun e => !(e = '\"')) := rfl
          rw [h3]
          have h4 := List.takeWhile_append_dropWhile
            (p := fun e => !(e = '\"')) (l := r)
          rw [heqd] at h4
          rw [h4]
        · cases h
      · cases h
    · cases h

theorem parseNamed_cover :
    ∀ fuel input segs rest, parseNamed fuel input = .ok (segs, rest) →
      segsText segs ++ rest = input := by
  intro fuel
  induction fuel with
  | zero => intro input segs rest h; simp [parseNamed] at h
  | succ fuel ih =>
    intro input segs rest h
    simp only [parseNamed] at h
    split at h
    · cases h
    · rename_i c cs heq
      split at h
      · rename_i hc
        simp only [Except.ok.injEq, Prod.mk.injEq] at h
        rw [← h.1, ← h.2]
        subst hc
        calc segsText [.fixed ((skipWs input).1 ++ [rbrace])] ++ cs
            = (skipWs input).1 ++ (rbrace :: cs) := by
              simp [segsText_cons, segsText_nil, Seg.text, List.append_assoc]
          _ = (skipWs input).1 ++ (skipWs input).2 := by rw [heq]
          _ = input := skipWs_append input
      · split at h
        · cases h
        · rename_i id r2 hid
          have hidc := parseIdent_cover _ _ _ hid
          split at h
          · cases h
          · rename_i d ds heq3
            split at h
            · rename_i hd
              split at h
              · cases h
              · rename_i more r4 hrec
                have ihc := ih ds more r4 hrec
                simp only [Except.ok.injEq, Prod.mk.injEq] at h
                rw [← h.1, ← h.2]
                subst hd
                calc segsText (.fixed (skipWs input).1 ::
                        .spec id.name.toList (.importSpecifier id id) ::
                        .fixed ((skipWs r2).1 ++ [',']) :: more) ++ r4
                    = (skipWs input).1 ++ (id.name.toList ++
                        ((skipWs r2).1 ++ (',' :: (segsText more ++ r4)))) := by
                      simp [segsText_cons, Seg.text, List.append_assoc]
                  _ = (skipWs input).1 ++ (id.name.toList ++
                        ((skipWs r2).1 ++ (',' :: ds))) := by rw [ihc]
                  _ = (skipWs input).1 ++ (id.name.toList ++
                        ((skipWs r2).1 ++ (skipWs r2).2)) := by rw [heq3]
                  _ = (skipWs input).1 ++ (id.name.toList ++ r2) := by
                      rw [skipWs_append r2]
                  _ = (skipWs input).1 ++ (skipWs input).2 := by rw [hidc]
                  _ = input := skipWs_append input
            · split at h
              · rename_i hd2
                simp only [Except.ok.injEq, Prod.mk.injEq] at h
                rw [← h.1, ← h.2]
                subst hd2
                calc segsText [.fixed (skipWs input).1,
                        .spec id.name.toList (.importSpecifier id id),
                        .fixed ((skipWs r2).1 ++ [rbrace])] ++ ds
                    = (skipWs input).1 ++ (id.name.toList ++
                        ((skipWs r2).1 ++ (rbrace :: ds))) := by
                      simp [segsText_cons, segsText_nil, Seg.text,
                        List.append_assoc]
                  _ = (skipWs input).1 ++ (id.name.toList ++
                        ((skipWs r2).1 ++ (skipWs r2).2)) := by rw [heq3]
                  _ = (skipWs input).1 ++ (id.name.toList ++ r2) := by
                      rw [skipWs_append r2]
                  _ = (skipWs input).1 ++ (skipWs input).2 := by rw [hidc]
                  _ = input := skipWs_append input
              · cases h

theorem parseSpecGroup_cover (fuel : Nat) (input : List Char)
    (segs : List Seg) (rest : List Char)
    (h : parseSpecGroup fuel input = .ok (segs, rest)) :
    segsText segs ++ rest = input := by
  unfold parseSpecGroup at h
  cases input with
  | nil => cases h
  | cons c cs =>
    simp only at h
    split at h
    · rename_i hc
      split at h
      · cases h
      · split at h
        · cases h
        · rename_i r2 htok
          split at h
          · cases h
          · split at h
            · cases h
            · rename_i id r4 hid
              simp only [Except.ok.injEq, Prod.mk.injEq] at h
              rw [← h.1, ← h.2]
              have hidc := parseIdent_cover _ _ _ hid
              have htokc := expectTok_append _ _ _ htok
              subst hc
              calc segsText [.spec ('*' :: ((skipWs cs).1 ++ ['a', 's'] ++
                      (skipWs r2).1 ++ id.name.toList))
                      (.importNamespaceSpecifier id)] ++ r4
                  = '*' :: ((skipWs cs).1 ++ ('a' :: 's' ::
                      ((skipWs r2).1 ++ (id.name.toList ++ r4)))) := by
                    simp [segsText_cons, segsText_nil, Seg.text,
                      List.append_assoc]
                _ = '*' :: ((skipWs cs).1 ++ ('a' :: 's' ::
                      ((skipWs r2).1 ++ (skipWs r2).2))) := by rw [hidc]
                _ = '*' :: ((skipWs cs).1 ++ ('a' :: 's' :: r2)) := by
                    rw [skipWs_append r2]
                _ = '*' :: ((skipWs cs).1 ++ (skipWs cs).2) := by
                    rw [show ('a' :: 's' :: r2 : List Char) =
                      ['a', 's'] ++ r2 from rfl, htokc]
                _ = '*' :: cs := by rw [skipWs_append cs]
    · split at h
      · rename_i hc2
        split at h
        · cases h
        · rename_i nsegs r hnamed
          simp only [Except.ok.injEq, Prod.mk.injEq] at h
          rw [← h.1, ← h.2]
          have hn := parseNamed_cover fuel cs nsegs r hnamed
          subst hc2
          calc segsText (.fixed [lbrace] :: nsegs) ++ r
              = lbrace :: (segsText nsegs ++ r) := by
                simp [segsText_cons, Seg.text]
            _ = lbrace :: cs := by rw [hn]
      · split at h
        · cases h
        · rename_i id r hid
          simp only [Except.ok.injEq, Prod.mk.injEq] at h
          rw [← h.1, ← h.2]
          have hidc := parseIdent_cover _ _ _ hid
          calc segsText [.spec id.name.toList
                  (.importDefaultSpecifier id)] ++ r
              = id.name.toList ++ r := by
                simp [segsText_cons, segsText_nil, Seg.text]
            _ = c :: cs := hidc

theorem parseSpecifiers_cover :
    ∀ fuel input segs rest, parseSpecifiers fuel input = .ok (segs, rest) →
      segsText segs ++ rest = input := by
  intro fuel
  induction fuel with
  | zero => intro input segs rest h; simp [parseSpecifiers] at h
  | succ fuel ih =>
    intro input segs rest h
    simp only [parseSpecifiers] at h
    split at h
    · cases h
    · rename_i g r1 hg
      have hgc := parseSpecGroup_cover fuel input g r1 hg
      split at h
      · rename_i c cs heq
        split at h
        · rename_i hc
          split at h
          · cases h
          · rename_i more r4 hrec
            have hmc := ih _ more r4 hrec
            simp only [Except.ok.injEq, Prod.mk.injEq] at h
            rw [← h.1, ← h.2]
            subst hc
            calc segsText (g ++ .fixed ((skipWs r1).1 ++
                    ',' :: (skipWs cs).1) :: more) ++ r4
                = segsText g ++ ((skipWs r1).1 ++
                    (',' :: ((skipWs cs).1 ++ (segsText more ++ r4)))) := by
                  simp [segsText_append, segsText_cons, Seg.text,
                    List.append_assoc]
              _ = segsText g ++ ((skipWs r1).1 ++
                    (',' :: ((skipWs cs).1 ++ (skipWs cs).2))) := by rw [hmc]
              _ = segsText g ++ ((skipWs r1).1 ++ (',' :: cs)) := by
                  rw [skipWs_append cs]
              _ = segsText g ++ ((skipWs r1).1 ++ (skipWs r1).2) := by
                  rw [heq]
              _ = segsText g ++ r1 := by rw [skipWs_append r1]
              _ = input := hgc
        · simp only [Except.ok.injEq, Prod.mk.injEq] at h
          rw [← h.1, ← h.2]
          exact hgc
      · simp only [Except.ok.injEq, Prod.mk.injEq] at h
        rw [← h.1, ← h.2]
        exact hgc

theorem parseImport_cover (fuel : Nat) (input : List Char)
    (segs : List Seg) (rest : List Char)
    (h : parseImport fuel input = .ok (segs, rest)) :
    segsText segs ++ rest = input := by
  unfold parseImport at h
  split at h
  · cases h
  · rename_i r1 htok
    have htokc := expectTok_append _ _ _ htok
    split at h
    · cases h
    · split at h
      · cases h
      · rename_i specSegs r3 hspecs
        have hsc := parseSpecifiers_cover _ _ specSegs r3 hspecs
        split at h
        · cases h
        · rename_i r5 htok2
          have htokc2 := expectTok_append _ _ _ htok2
          split at h
          · cases h
          · rename_i v r7 hlit
            have hlitc := parseStringLit_cover _ _ _ hlit
            split at h
            · rename_i c r9 heq
              split at h
              · rename_i hc
                simp only [Except.ok.injEq, Prod.mk.injEq] at h
                rw [← h.1, ← h.2]
                subst hc
                calc segsText (.fixed ("import".toList ++ (skipWs r1).1) ::
                        specSegs ++
                        [.fixed ((skipWs r3).1 ++ "from".toList ++
                          (skipWs r5).1),
                         .lit ('\"' :: v.toList ++ ['\"'])
                           (.stringLiteral v),
                         .fixed ((skipWs r7).1 ++ [';'])]) ++ r9
                    = "import".toList ++ ((skipWs r1).1 ++
                        (segsText specSegs ++ ((skipWs r3).1 ++
                        ("from".toList ++ ((skipWs r5).1 ++
                        ('\"' :: (v.toList ++ '\"' ::
                        ((skipWs r7).1 ++ (';' :: r9))))))))) := by
                      simp [segsText_cons, segsText_append, segsText_nil,
                        Seg.text, List.append_assoc]
                  _ = "import".toList ++ ((skipWs r1).1 ++
                        (segsText specSegs ++ ((skipWs r3).1 ++
                        ("from".toList ++ ((skipWs r5).1 ++
                        ('\"' :: (v.toList ++ '\"' ::
                        ((skipWs r7).1 ++ (skipWs r7).2)))))))) := by
                      rw [heq]
                  _ = "import".toList ++ ((skipWs r1).1 ++
                        (segsText specSegs ++ ((skipWs r3).1 ++
                        ("from".toList ++ ((skipWs r5).1 ++
                        ('\"' :: (v.toList ++ '\"' :: r7))))))) := by
                      rw [skipWs_append r7]
                  _ = "import".toList ++ ((skipWs r1).1 ++
                        (segsText specSegs ++ ((skipWs r3).1 ++
                        ("from".toList ++ ((skipWs r5).1 ++
                        (skipWs r5).2))))) := by rw [hlitc]
                  _ = "import".toList ++ ((skipWs r1).1 ++
                        (segsText specSegs ++ ((skipWs r3).1 ++
                        ("from".toList ++ r5)))) := by rw [skipWs_append r5]
                  _ = "import".toList ++ ((skipWs r1).1 ++
                        (segsText specSegs ++ ((skipWs r3).1 ++
                        (skipWs r3).2))) := by rw [htokc2]
                  _ = "import".toList ++ ((skipWs r1).1 ++
                        (segsText specSegs ++ r3)) := by rw [skipWs_append r3]
                  _ = "import".toList ++ ((skipWs r1).1 ++
                        (skipWs r1).2) := by rw [hsc]
                  _ = "import".toList ++ r1 := by rw [skipWs_append r1]
                  _ = input := htokc
              · cases h
            · cases h

theorem parseStmtsFuel_roundtrip :
    ∀ fuel input stmts trailing,
      parseStmtsFuel fuel input = .ok (stmts, trailing) →
      (stmts.map PStmt.text).flatten ++ trailing = input := by
  intro fuel
  induction fuel with
  | zero => intro input stmts trailing h; simp [parseStmtsFuel] at h
  | succ fuel ih =>
    intro input stmts trailing h
    simp only [parseStmtsFuel] at h
    split at h
    · rename_i heq
      simp only [Except.ok.injEq, Prod.mk.injEq] at h
      rw [← h.1, ← h.2]
      have hsw := skipWs_append input
      rw [heq] at hsw
      simpa using hsw
    · rename_i c cs heq
      split at h
      · split at h
        · cases h
        · rename_i segs r2 himp
          split at h
          · cases h
          · rename_i more trailing2 hrec
            simp only [Except.ok.injEq, Prod.mk.injEq] at h
            rw [← h.1, ← h.2]
            have hic := parseImport_cover _ _ _ _ himp
            have hih := ih r2 more trailing2 hrec
            calc ((⟨.fixed (skipWs input).1 :: segs⟩ :: more).map
                    PStmt.text).flatten ++ trailing2
                = (skipWs input).1 ++ (segsText segs ++
                    ((more.map PStmt.text).flatten ++ trailing2)) := by
                  simp [PStmt.text, segsText_cons, Seg.text,
                    List.append_assoc]
              _ = (skipWs input).1 ++ (segsText segs ++ r2) := by rw [hih]
              _ = (skipWs input).1 ++ (c :: cs) := by rw [hic]
              _ = (skipWs input).1 ++ (skipWs input).2 := by rw [heq]
              _ = input := skipWs_append input
      · cases h

theorem parseFile_roundtrip (filepath : String) (source : List Char)
    (pf : PFile) (h : parseFile filepath source = .ok pf) :
    (pf.stmts.map PStmt.text).flatten ++ pf.trailing = source := by
  unfold parseFile at h
  split at h
  · rename_i stmts trailing heq
    simp only [Except.ok.injEq] at h
    rw [← h]
    exact parseStmtsFuel_roundtrip _ source stmts trailing heq
  · cases h

/-! ### Printer lemmas -/

theorem zipWith_print_noop (l : List PStmt) :
    List.zipWith printStmtResult l (l.map fun ps => (ps.node, false)) =
      l.map PStmt.text := by
  induction l with
  | nil => rfl
  | cons p l ih => simp [printStmtResult, ih]

theorem noopCodemod_eq (pf : PFile) (fp s : String) :
    noopCodemod ⟨pf.stmts.map PStmt.node⟩ fp s =
      pf.stmts.map fun ps => (ps.node, false) := by
  simp [noopCodemod, List.map_map, Function.comp]

/-- C2: for every source text accepted by the parser, printing the parsed
tree with a transform that mutates nothing returns the source exactly, byte
for byte. -/
theorem c2_identity_roundtrip (filepath : String) (source : List Char)
    (pf : PFile) (h : parseFile filepath source = .ok pf) :
    printFile pf (noopCodemod ⟨pf.stmts.map PStmt.node⟩ filepath
      (String.mk source)) = source := by
  rw [noopCodemod_eq]
  unfold printFile
  rw [zipWith_print_noop]
  exact parseFile_roundtrip filepath source pf h

theorem c2_identity_roundtrip_witness :
    parseFile "file.ts" sampleSource = .ok samplePF ∧
    printFile samplePF (noopCodemod ⟨samplePF.stmts.map PStmt.node⟩
      "file.ts" (String.mk sampleSource)) = sampleSource :=
  ⟨rfl, c2_identity_roundtrip "file.ts" _ _ rfl⟩

/-- C1: running the pipeline with the registered `react-to-star-import`
transform turns `import React from "react";` into
`import * as React from "react";`, and leaves the named-import and
other-module examples unchanged. -/
theorem c1_concrete_scenario :
    transformFile "react-to-star-import" "file.ts"
        ("import React from \"react\";".toList) =
      .ok ("import * as React from \"react\";".toList) ∧
    transformFile "react-to-star-import" "file.ts"
        ("import \x7b useState \x7d from \"react\";".toList) =
      .ok ("import \x7b useState \x7d from \"react\";".toList) ∧
    transformFile "react-to-star-import" "file.ts"
        ("import Something from \"other-module\";".toList) =
      .ok ("import Something from \"other-module\";".toList) :=
  ⟨rfl, rfl, rfl⟩

/-- C10: inside an import from `"react"`, each default specifier is
replaced in place by a namespace specifier that reuses the same local
identifier; every other specifier keeps its kind and position; the
specifier list's length is unchanged; statements that are not import
declarations from `"react"` are never written to. -/
theorem c10_replacement_shape :
    (∀ l, replaceSpecifier (.importDefaultSpecifier l) =
        (.importNamespaceSpecifier l, true)) ∧
    (∀ imp l, replaceSpecifier (.importSpecifier imp l) =
        (.importSpecifier imp l, false)) ∧
    (∀ l, replaceSpecifier (.importNamespaceSpecifier l) =
        (.importNamespaceSpecifier l, false)) ∧
    (∀ specs, codemodStmt (.importDeclaration (.stringLiteral "react") specs) =
        (.importDeclaration (.stringLiteral "react")
          (specs.map fun sp => (replaceSpecifier sp).1),
         specs.any fun sp => (replaceSpecifier sp).2)) ∧
    (∀ specs : List Specifier,
        (specs.map fun sp => (replaceSpecifier sp).1).length = specs.length) ∧
    (∀ src specs, src ≠ Lit.stringLiteral "react" →
        codemodStmt (.importDeclaration src specs) =
          (.importDeclaration src specs, false)) ∧
    (codemodStmt .otherStatement = (.otherStatement, false)) ∧
    (∀ ast fp s, codemod ast fp s = ast.body.map codemodStmt) := by
  refine ⟨fun l => rfl, fun imp l => rfl, fun l => rfl, ?_, ?_, ?_, rfl,
    fun ast fp s => rfl⟩
  · intro specs
    have h1 : (specs.map replaceSpecifier).map Prod.fst =
        specs.map fun sp => (replaceSpecifier sp).1 := by
      rw [List.map_map]; rfl
    have h2 : (specs.map replaceSpecifier).any Prod.snd =
        specs.any fun sp => (replaceSpecifier sp).2 := by
      induction specs with
      | nil => rfl
      | cons s ss ih => simp [ih]
    simp [codemodStmt, h1, h2]
  · intro specs
    simp
  · intro src specs hne
    cases src with
    | stringLiteral v =>
      have hv : v ≠ "react" := by
        intro hv
        exact hne (by rw [hv])
      simp [codemodStmt, hv]
    | otherLiteral => rfl

theorem c10_replacement_shape_witness :
    (Lit.stringLiteral "other" ≠ Lit.stringLiteral "react") ∧
    codemodStmt (.importDeclaration (.stringLiteral "other")
        [.importDefaultSpecifier ⟨"X"⟩]) =
      (.importDeclaration (.stringLiteral "other")
        [.importDefaultSpecifier ⟨"X"⟩], false) :=
  ⟨by decide, c10_replacement_shape.2.2.2.2.2.1 (.stringLiteral "other")
    [.importDefaultSpecifier ⟨"X"⟩] (by decide)⟩

/-! ### Idempotence of the codemod -/

theorem replaceSpecifier_fst_not_default (sp : Specifier) :
    ((replaceSpecifier sp).1).isDefault = false := by
  cases sp <;> rfl

theorem replaceSpecifier_clean (sp : Specifier) (h : sp.isDefault = false) :
    replaceSpecifier sp = (sp, false) := by
  cases sp with
  | importDefaultSpecifier l => simp [Specifier.isDefault] at h
  | importSpecifier imp l => rfl
  | importNamespaceSpecifier l => rfl

theorem map_pair_false_fst (l : List Specifier) :
    ((l.map fun sp => (sp, false)).map Prod.fst) = l := by
  induction l with
  | nil => rfl
  | cons s ss ih => simp [ih]

theorem map_pair_false_any (l : List Specifier) :
    ((l.map fun sp => (sp, false)).any Prod.snd) = false := by
  induction l with
  | nil => rfl
  | cons s ss ih => simp [ih]

theorem codemodStmt_react_eq (specs : List Specifier) :
    codemodStmt (.importDeclaration (.stringLiteral "react") specs) =
      (.importDeclaration (.stringLiteral "react")
        ((specs.map replaceSpecifier).map Prod.fst),
       (specs.map replaceSpecifier).any Prod.snd) := by
  simp [codemodStmt]

theorem codemodStmt_fst_clean (st : Stmt) :
    stmtNoReactDefault (codemodStmt st).1 = true := by
  cases st with
  | importDeclaration src specs =>
    cases src with
    | stringLiteral v =>
      by_cases hv : v = "react"
      · subst hv
        rw [codemodStmt_react_eq]
        show (if ("react" : String) = "react" then
            ((specs.map replaceSpecifier).map Prod.fst).all fun sp => !sp.isDefault
          else true) = true
        rw [if_pos rfl, List.all_eq_true]
        intro x hx
        obtain ⟨sp, -, rfl⟩ := List.mem_map.mp
          (by simpa [List.map_map] using hx)
        simp [replaceSpecifier_fst_not_default]
      · simp [codemodStmt, hv, stmtNoReactDefault]
    | otherLiteral => rfl
  | otherStatement => rfl

theorem codemodStmt_clean (st : Stmt) (h : stmtNoReactDefault st = true) :
    codemodStmt st = (st, false) := by
  cases st with
  | importDeclaration src specs =>
    cases src with
    | stringLiteral v =>
      by_cases hv : v = "react"
      · subst hv
        have hall : ∀ sp ∈ specs, sp.isDefault = false := by
          intro sp hsp
          have h2 : (if ("react" : String) = "react" then
              specs.all fun sp => !sp.isDefault else true) = true := h
          rw [if_pos rfl, List.all_eq_true] at h2
          simpa using h2 sp hsp
        have hmap : specs.map replaceSpecifier = specs.map fun sp => (sp, false) :=
          List.map_congr_left fun sp hsp =>
            replaceSpecifier_clean sp (hall sp hsp)
        rw [codemodStmt_react_eq, hmap, map_pair_false_fst, map_pair_false_any]
      · simp [codemodStmt, hv]
    | otherLiteral => rfl
  | otherStatement => rfl

theorem codemod_output_clean (ast : Program) (fp s : String) :
    noReactDefault ((codemod ast fp s).map Prod.fst) = true := by
  unfold noReactDefault
  rw [List.all_eq_true]
  intro x hx
  obtain ⟨st, -, rfl⟩ := List.mem_map.mp (by simpa [codemod, List.map_map] using hx)
  exact codemodStmt_fst_clean st

theorem codemod_clean (body : List Stmt) (fp s : String)
    (h : noReactDefault body = true) :
    codemod ⟨body⟩ fp s = body.map fun st => (st, false) := by
  unfold codemod
  refine List.map_congr_left fun st hst => ?_
  have := (List.all_eq_true.mp h) st hst
  exact codemodStmt_clean st this

theorem lookup_react : lookupCodemod "react-to-star-import" = some codemod := rfl

/-- C8: one application of the codemod leaves no default specifier in
any import from `"react"`, so a second application writes nothing and
returns the same tree, and on any already-transformed source the whole
pipeline is the identity on the printed text. -/
theorem c8_idempotent :
    (∀ ast fp s, noReactDefault ((codemod ast fp s).map Prod.fst) = true) ∧
    (∀ body fp s, noReactDefault body = true →
        codemod ⟨body⟩ fp s = body.map fun st => (st, false)) ∧
    (∀ ast fp1 s1 fp2 s2,
        codemod ⟨(codemod ast fp1 s1).map Prod.fst⟩ fp2 s2 =
          ((codemod ast fp1 s1).map Prod.fst).map fun st => (st, false)) ∧
    (∀ fp source pf, parseFile fp source = .ok pf →
        noReactDefault (pf.stmts.map PStmt.node) = true →
        transformFile "react-to-star-import" fp source = .ok source) := by
  refine ⟨codemod_output_clean, codemod_clean, ?_, ?_⟩
  · intro ast fp1 s1 fp2 s2
    exact codemod_clean _ fp2 s2 (codemod_output_clean ast fp1 s1)
  · intro fp source pf hp hno
    have hstep : transformFile "react-to-star-import" fp source =
        .ok (printFile pf
          (codemod ⟨pf.stmts.map PStmt.node⟩ fp (String.mk source))) := by
      unfold transformFile
      rw [hp, lookup_react]
    rw [hstep, codemod_clean _ _ _ hno]
    unfold printFile
    rw [show ((pf.stmts.map PStmt.node).map fun st => (st, false)) =
          pf.stmts.map fun ps => (ps.node, false) from by simp [List.map_map]]
    rw [zipWith_print_noop]
    rw [parseFile_roundtrip fp source pf hp]

theorem c8_idempotent_witness :
    parseFile "file.ts" sampleStarSource = .ok sampleStarPF ∧
    noReactDefault (sampleStarPF.stmts.map PStmt.node) = true ∧
    transformFile "react-to-star-import" "file.ts" sampleStarSource =
      .ok sampleStarSource :=
  ⟨rfl, by decide, c8_idempotent.2.2.2 "file.ts" _ _ rfl (by decide)⟩

/-! ### Minimal-diff printing -/

theorem zipWith_print_untouched :
    ∀ (stmts : List PStmt) (results : List (Stmt × Bool)) (i : Nat)
      (r : Stmt × Bool),
      results.length = stmts.length →
      results[i]? = some r → r.2 = false →
      (List.zipWith printStmtResult stmts results)[i]? =
        (stmts.map PStmt.text)[i]? := by
  intro stmts
  induction stmts with
  | nil =>
    intro results i r hlen hr hflag
    have hnil : results = [] := List.eq_nil_of_length_eq_zero (by simpa using hlen)
    subst hnil
    simp at hr
  | cons p ps ih =>
    intro results i r hlen hr hflag
    cases results with
    | nil => simp at hr
    | cons q qs =>
      cases i with
      | zero =>
        simp only [List.getElem?_cons_zero, Option.some.injEq] at hr
        subst hr
        simp [printStmtResult, hflag]
      | succ n =>
        simp only [List.zipWith, List.map, List.getElem?_cons_succ]
        exact ih qs n r (by simpa using hlen) (by simpa using hr) hflag

theorem zipWith_getElem_print :
    ∀ (stmts : List PStmt) (results : List (Stmt × Bool)) (i : Nat)
      (ps : PStmt) (r : Stmt × Bool),
      stmts[i]? = some ps → results[i]? = some r →
      (List.zipWith printStmtResult stmts results)[i]? =
        some (printStmtResult ps r) := by
  intro stmts
  induction stmts with
  | nil => intro results i ps r hs hr; simp at hs
  | cons p pps ih =>
    intro results i ps r hs hr
    cases results with
    | nil => simp at hr
    | cons q qs =>
      cases i with
      | zero =>
        simp only [List.getElem?_cons_zero, Option.some.injEq] at hs hr
        subst hs
        subst hr
        simp [List.zipWith]
      | succ n =>
        simp only [List.zipWith, List.getElem?_cons_succ]
        exact ih qs n ps r (by simpa using hs) (by simpa using hr)

theorem printSegPieces_length :
    ∀ (segs : List Seg) (lit2 : Lit) (sps : List Specifier),
      (printSegPieces segs lit2 sps).length = segs.length := by
  intro segs
  induction segs with
  | nil => intro lit2 sps; rfl
  | cons s rest ih =>
    intro lit2 sps
    cases s with
    | fixed t => simp [printSegPieces, ih]
    | lit t nd => simp [printSegPieces, ih]
    | spec t nd =>
      cases sps with
      | nil => simp [printSegPieces, ih]
      | cons sp2 sps => simp [printSegPieces, ih]

theorem printSegPieces_fixed :
    ∀ (segs : List Seg) (lit2 : Lit) (sps : List Specifier) (k : Nat)
      (t : List Char),
      segs[k]? = some (.fixed t) →
      (printSegPieces segs lit2 sps)[k]? = some t := by
  intro segs
  induction segs with
  | nil => intro lit2 sps k t hk; simp at hk
  | cons s rest ih =>
    intro lit2 sps k t hk
    cases k with
    | zero =>
      simp only [List.getElem?_cons_zero, Option.some.injEq] at hk
      subst hk
      simp [printSegPieces]
    | succ n =>
      simp only [List.getElem?_cons_succ] at hk
      cases s with
      | fixed t0 =>
        simp only [printSegPieces, List.getElem?_cons_succ]
        exact ih lit2 sps n t hk
      | lit t0 nd0 =>
        simp only [printSegPieces, List.getElem?_cons_succ]
        exact ih lit2 sps n t hk
      | spec t0 nd0 =>
        cases sps with
        | nil =>
          simp only [printSegPieces, List.getElem?_cons_succ]
          exact ih lit2 [] n t hk
        | cons sp2 sps =>
          simp only [printSegPieces, List.getElem?_cons_succ]
          exact ih lit2 sps n t hk

theorem printSegPieces_lit :
    ∀ (segs : List Seg) (lit2 : Lit) (sps : List Specifier) (k : Nat)
      (t : List Char) (nd : Lit),
      segs[k]? = some (.lit t nd) → lit2 = nd →
      (printSegPieces segs lit2 sps)[k]? = some t := by
  intro segs
  induction segs with
  | nil => intro lit2 sps k t nd hk hl2; simp at hk
  | cons s rest ih =>
    intro lit2 sps k t nd hk hl2
    cases k with
    | zero =>
      simp only [List.getElem?_cons_zero, Option.some.injEq] at hk
      subst hk
      simp [printSegPieces, hl2]
    | succ n =>
      simp only [List.getElem?_cons_succ] at hk
      cases s with
      | fixed t0 =>
        simp only [printSegPieces, List.getElem?_cons_succ]
        exact ih lit2 sps n t nd hk hl2
      | lit t0 nd0 =>
        simp only [printSegPieces, List.getElem?_cons_succ]
        exact ih lit2 sps n t nd hk hl2
      | spec t0 nd0 =>
        cases sps with
        | nil =>
          simp only [printSegPieces, List.getElem?_cons_succ]
          exact ih lit2 [] n t nd hk hl2
        | cons sp2 sps =>
          simp only [printSegPieces, List.getElem?_cons_succ]
          exact ih lit2 sps n t nd hk hl2

theorem printSegPieces_spec :
    ∀ (segs : List Seg) (lit2 : Lit) (sps : List Specifier) (k : Nat)
      (t : List Char) (nd : Specifier),
      segs[k]? = some (.spec t nd) →
      sps[(segs.take k).countP isSpecSeg]? = some nd →
      (printSegPieces segs lit2 sps)[k]? = some t := by
  intro segs
  induction segs with
  | nil => intro lit2 sps k t nd hk hsp; simp at hk
  | cons s rest ih =>
    intro lit2 sps k t nd hk hsp
    cases k with
    | zero =>
      simp only [List.getElem?_cons_zero, Option.some.injEq] at hk
      subst hk
      simp only [List.take_zero, List.countP_nil] at hsp
      cases sps with
      | nil => simp at hsp
      | cons sp2 sps =>
        simp only [List.getElem?_cons_zero, Option.some.injEq] at hsp
        subst hsp
        simp [printSegPieces]
    | succ n =>
      simp only [List.getElem?_cons_succ] at hk
      cases s with
      | fixed t0 =>
        simp only [List.take_succ_cons, List.countP_cons, isSpecSeg] at hsp
        simp only [printSegPieces, List.getElem?_cons_succ]
        exact ih lit2 sps n t nd hk (by simpa using hsp)
      | lit t0 nd0 =>
        simp only [List.take_succ_cons, List.countP_cons, isSpecSeg] at hsp
        simp only [printSegPieces, List.getElem?_cons_succ]
        exact ih lit2 sps n t nd hk (by simpa using hsp)
      | spec t0 nd0 =>
        simp only [List.take_succ_cons, List.countP_cons, isSpecSeg,
          if_pos] at hsp
        cases sps with
        | nil => simp at hsp
        | cons sp2 sps =>
          have hsp2 : sps[(rest.take n).countP isSpecSeg]? = some nd := by
            simpa using hsp
          simp only [printSegPieces, List.getElem?_cons_succ]
          exact ih lit2 sps n t nd hk hsp2

/-- C4: the printed output differs from the original source only at the
nodes the transform wrote to. The source is the concatenation of the
original statement slices plus trailing trivia, and the output the
concatenation of per-statement pieces plus the same trailing trivia; a
statement never written to prints its whole original slice; a written
statement is patched segment by segment, one piece per segment: fixed
frame text (whitespace, braces, commas, keywords) always keeps its
original bytes, and the source literal and every specifier that still
equals the node parsed at its position keep their original slices —
whitespace and quote style included — while only replaced nodes are
rendered anew. -/
theorem c4_minimal_diff (fp : String) (source : List Char) (pf : PFile)
    (results : List (Stmt × Bool)) (hp : parseFile fp source = .ok pf)
    (hl : results.length = pf.stmts.length) :
    (source = (pf.stmts.map PStmt.text).flatten ++ pf.trailing) ∧
    (∃ outPieces : List (List Char),
      outPieces.length = pf.stmts.length ∧
      printFile pf results = outPieces.flatten ++ pf.trailing ∧
      (∀ (i : Nat) (r : Stmt × Bool), results[i]? = some r → r.2 = false →
        outPieces[i]? = (pf.stmts.map PStmt.text)[i]?) ∧
      (∀ (i : Nat) (ps : PStmt) (r : Stmt × Bool) (lit2 : Lit)
          (specs2 : List Specifier),
        pf.stmts[i]? = some ps → results[i]? = some r → r.2 = true →
        r.1 = .importDeclaration lit2 specs2 →
        specs2.length = (segsSpecs ps.segs).length →
        outPieces[i]? = some (printSegs ps.segs lit2 specs2))) ∧
    (∀ (segs : List Seg) (lit2 : Lit) (specs2 : List Specifier),
      printSegs segs lit2 specs2 =
        (printSegPieces segs lit2 specs2).flatten ∧
      (printSegPieces segs lit2 specs2).length = segs.length ∧
      (∀ (k : Nat) (t : List Char), segs[k]? = some (.fixed t) →
        (printSegPieces segs lit2 specs2)[k]? = some t) ∧
      (∀ (k : Nat) (t : List Char) (nd : Lit),
        segs[k]? = some (.lit t nd) → lit2 = nd →
        (printSegPieces segs lit2 specs2)[k]? = some t) ∧
      (∀ (k : Nat) (t : List Char) (nd : Specifier),
        segs[k]? = some (.spec t nd) →
        specs2[(segs.take k).countP isSpecSeg]? = some nd →
        (printSegPieces segs lit2 specs2)[k]? = some t)) := by
  refine ⟨(parseFile_roundtrip fp source pf hp).symm,
    ⟨List.zipWith printStmtResult pf.stmts results, ?_, rfl, ?_, ?_⟩,
    fun segs lit2 specs2 =>
      ⟨rfl, printSegPieces_length segs lit2 specs2,
       fun k t hk => printSegPieces_fixed segs lit2 specs2 k t hk,
       fun k t nd hk hl2 => printSegPieces_lit segs lit2 specs2 k t nd hk hl2,
       fun k t nd hk hsp =>
         printSegPieces_spec segs lit2 specs2 k t nd hk hsp⟩⟩
  · rw [List.length_zipWith, hl, Nat.min_self]
  · intro i r hr hflag
    exact zipWith_print_untouched pf.stmts results i r hl hr hflag
  · intro i ps r lit2 specs2 hs hr hflag hnode hlen2
    rw [zipWith_getElem_print pf.stmts results i ps r hs hr]
    simp [printStmtResult, hflag, hnode, hlen2]

theorem c4_minimal_diff_witness :
    parseFile "file.ts" sampleSource = .ok samplePF ∧
    ((sampleSource = (samplePF.stmts.map PStmt.text).flatten ++
        samplePF.trailing) ∧
     (∃ outPieces : List (List Char),
       outPieces.length = samplePF.stmts.length ∧
       printFile samplePF sampleResults = outPieces.flatten ++
         samplePF.trailing ∧
       (∀ (i : Nat) (r : Stmt × Bool), sampleResults[i]? = some r →
         r.2 = false →
         outPieces[i]? = (samplePF.stmts.map PStmt.text)[i]?) ∧
       (∀ (i : Nat) (ps : PStmt) (r : Stmt × Bool) (lit2 : Lit)
           (specs2 : List Specifier),
         samplePF.stmts[i]? = some ps → sampleResults[i]? = some r →
         r.2 = true → r.1 = .importDeclaration lit2 specs2 →
         specs2.length = (segsSpecs ps.segs).length →
         outPieces[i]? = some (printSegs ps.segs lit2 specs2))) ∧
     (∀ (segs : List Seg) (lit2 : Lit) (specs2 : List Specifier),
       printSegs segs lit2 specs2 =
         (printSegPieces segs lit2 specs2).flatten ∧
       (printSegPieces segs lit2 specs2).length = segs.length ∧
       (∀ (k : Nat) (t : List Char), segs[k]? = some (.fixed t) →
         (printSegPieces segs lit2 specs2)[k]? = some t) ∧
       (∀ (k : Nat) (t : List Char) (nd : Lit),
         segs[k]? = some (.lit t nd) → lit2 = nd →
         (printSegPieces segs lit2 specs2)[k]? = some t) ∧
       (∀ (k : Nat) (t : List Char) (nd : Specifier),
         segs[k]? = some (.spec t nd) →
         specs2[(segs.take k).countP isSpecSeg]? = some nd →
         (printSegPieces segs lit2 specs2)[k]? = some t))) :=
  ⟨rfl, c4_minimal_diff "file.ts" sampleSource samplePF sampleResults rfl rfl⟩

/-! ### File-system and batch-runner lemmas -/

theorem read_write_self (fs : FS) (p : String) (v : List Char) :
    (fs.write p v).read p = some v := by
  induction fs with
  | nil => simp [FS.write, FS.read]
  | cons e fs ih =>
    obtain ⟨q, w⟩ := e
    by_cases h : q = p
    · subst h
      simp [FS.write, FS.read]
    · simp only [FS.write, if_neg h]
      unfold FS.read at ih ⊢
      rw [List.find?_cons_of_neg _ (by simp [h])]
      exact ih

theorem read_write_ne (fs : FS) (p q : String) (v : List Char) (h : q ≠ p) :
    (fs.write p v).read q = fs.read q := by
  have hpq : ¬(p = q) := Ne.symm h
  induction fs with
  | nil =>
    simp only [FS.write, FS.read]
    rw [List.find?_cons_of_neg _ (by simp [hpq])]
  | cons e fs ih =>
    obtain ⟨a, w⟩ := e
    by_cases ha : a = p
    · subst ha
      have hw : FS.write ((a, w) :: fs) a v = (a, v) :: fs := by
        simp [FS.write]
      rw [hw]
      unfold FS.read
      rw [List.find?_cons_of_neg _ (by simp [hpq]),
        List.find?_cons_of_neg _ (by simp [hpq])]
    · simp only [FS.write, if_neg ha]
      by_cases haq : a = q
      · subst haq
        unfold FS.read
        rw [List.find?_cons_of_pos _ (by simp),
          List.find?_cons_of_pos _ (by simp)]
      · unfold FS.read at ih ⊢
        rw [List.find?_cons_of_neg _ (by simp [haq]),
          List.find?_cons_of_neg _ (by simp [haq])]
        exact ih

theorem runFiles_append (name : String) (l1 l2 : List String) (fs : FS)
    (log : List String) :
    runFiles name (l1 ++ l2) fs log =
      match runFiles name l1 fs log with
      | (fs1, log1, none) => runFiles name l2 fs1 log1
      | (fs1, log1, some e) => (fs1, log1, some e) := by
  induction l1 generalizing fs log with
  | nil => simp [runFiles]
  | cons f l1 ih =>
    simp only [List.cons_append, runFiles]
    cases hread : fs.read f with
    | none => simp
    | some src =>
      simp only
      cases htr : transformFile name f src with
      | error e => simp
      | ok out => simp [ih]

theorem runFiles_pre_ok (name : String) :
    ∀ (pre : List String) (fs : FS) (log : List String),
      pre.Nodup →
      (∀ f ∈ pre, ∃ src out, fs.read f = some src ∧
        transformFile name f src = .ok out) →
      (runFiles name pre fs log).2.2 = none ∧
      (∀ p, p ∉ pre → (runFiles name pre fs log).1.read p = fs.read p) := by
  intro pre
  induction pre with
  | nil =>
    intro fs log hnd hok
    exact ⟨rfl, fun p hp => rfl⟩
  | cons f rest ih =>
    intro fs log hnd hok
    obtain ⟨src, out, hread, htr⟩ := hok f (by simp)
    have hnd2 := List.nodup_cons.mp hnd
    have hstep : runFiles name (f :: rest) fs log =
        runFiles name rest (fs.write f out)
          ((log ++ ["Transforming: " ++ f, "--- Before: ---", String.mk src]) ++
            ["--- After: ---", String.mk out, "------"]) := by
      simp only [runFiles, hread, htr]
    have hok2 : ∀ g ∈ rest, ∃ src2 out2,
        (fs.write f out).read g = some src2 ∧
        transformFile name g src2 = .ok out2 := by
      intro g hg
      obtain ⟨s2, o2, hr2, ht2⟩ := hok g (by simp [hg])
      have hneq : g ≠ f := fun hh => hnd2.1 (hh ▸ hg)
      refine ⟨s2, o2, ?_, ht2⟩
      rw [read_write_ne fs f g out hneq]
      exact hr2
    obtain ⟨hnone, hpres⟩ := ih (fs.write f out) _ hnd2.2 hok2
    rw [hstep]
    refine ⟨hnone, fun p hp => ?_⟩
    have hpf : p ≠ f := fun hh => hp (by simp [hh])
    have hprest : p ∉ rest := fun hh => hp (by simp [hh])
    rw [hpres p hprest, read_write_ne fs f p out hpf]

/-- C3: with files processed in order, if every file before position `k`
transforms successfully and the file at position `k` fails (parse error or
transform error), then the run stops with exactly that one error, the files
before `k` keep the contents already written, and the failing file and
every file not written before it keep their original on-disk contents. -/
theorem c3_fail_fast (name : String) (pre : List String) (badFile : String)
    (post : List String) (fs : FS) (badSrc : List Char) (e : RunError)
    (hnd : pre.Nodup) (hbad : badFile ∉ pre)
    (hok : ∀ f ∈ pre, ∃ src out, fs.read f = some src ∧
        transformFile name f src = .ok out)
    (hread : fs.read badFile = some badSrc)
    (htr : transformFile name badFile badSrc = .error e) :
    (∀ log : List String,
      (runFiles name (pre ++ badFile :: post) fs log).2.2 = some e ∧
      (runFiles name (pre ++ badFile :: post) fs log).1 =
        (runFiles name pre fs log).1 ∧
      (∀ p, p ∉ pre →
        (runFiles name (pre ++ badFile :: post) fs log).1.read p =
          fs.read p)) ∧
    (mainTop (some name) (pre ++ badFile :: post) fs).errLog =
      ["Codemod failed:", RunError.message e] := by
  have hgen : ∀ log : List String,
      (runFiles name (pre ++ badFile :: post) fs log).2.2 = some e ∧
      (runFiles name (pre ++ badFile :: post) fs log).1 =
        (runFiles name pre fs log).1 ∧
      (∀ p, p ∉ pre →
        (runFiles name (pre ++ badFile :: post) fs log).1.read p =
          fs.read p) := by
    intro log
    have happ := runFiles_append name pre (badFile :: post) fs log
    obtain ⟨hnone, hpres⟩ := runFiles_pre_ok name pre fs log hnd hok
    rcases hpre : runFiles name pre fs log with ⟨fs1, log1, o⟩
    rw [hpre] at hnone hpres happ
    simp only at hnone
    subst hnone
    have hreadbad : fs1.read badFile = some badSrc := by
      rw [hpres badFile hbad]
      exact hread
    have hwhole : runFiles name (pre ++ badFile :: post) fs log =
        (fs1, log1 ++ ["Transforming: " ++ badFile, "--- Before: ---",
          String.mk badSrc], some e) := by
      rw [happ]
      simp only [runFiles, hreadbad, htr]
    rw [hwhole]
    exact ⟨rfl, rfl, fun p hp => hpres p hp⟩
  refine ⟨hgen, ?_⟩
  unfold mainTop
  simp only
  rcases hrun : runFiles name (pre ++ badFile :: post) fs
      ["--- Starting codemod run. ---"] with ⟨fs2, log2, o⟩
  have ho := (hgen ["--- Starting codemod run. ---"]).1
  rw [hrun] at ho
  simp only at ho
  subst ho
  rfl

theorem c3_fail_fast_witness :
    (runFiles "react-to-star-import" (["a.ts"] ++ "b.ts" :: ["c.ts"])
        sampleFS []).2.2 = some sampleBadErr ∧
    (runFiles "react-to-star-import" (["a.ts"] ++ "b.ts" :: ["c.ts"])
        sampleFS []).1 =
      (runFiles "react-to-star-import" ["a.ts"] sampleFS []).1 ∧
    (∀ p, p ∉ ["a.ts"] →
      (runFiles "react-to-star-import" (["a.ts"] ++ "b.ts" :: ["c.ts"])
          sampleFS []).1.read p = sampleFS.read p) ∧
    (mainTop (some "react-to-star-import")
        (["a.ts"] ++ "b.ts" :: ["c.ts"]) sampleFS).errLog =
      ["Codemod failed:", RunError.message sampleBadErr] := by
  have h := c3_fail_fast "react-to-star-import" ["a.ts"] "b.ts" ["c.ts"]
    sampleFS ("blah".toList) sampleBadErr (by simp) (by simp)
    (by
      intro f hf
      have hf2 : f = "a.ts" := by simpa using hf
      subst hf2
      exact ⟨sampleSource, "import * as React from \"react\";".toList,
        rfl, rfl⟩)
    rfl rfl
  exact ⟨(h.1 []).1, (h.1 []).2.1, (h.1 []).2.2, h.2⟩

/-! ### Unknown-transform diagnostics -/

/-- C9: looking up an unregistered transform name makes the run fail with
the message that names the requested key and lists every registered
transform name; invoking the run with no transform name fails with the
message listing every registered name. -/
theorem c9_unknown_transform_diagnostics :
    (∀ name, lookupCodemod name = none →
      (∀ fp source pf, parseFile fp source = .ok pf →
        transformFile name fp source =
          .error (.generic (noSuchCodemodMsg name))) ∧
      name.toList <:+: (noSuchCodemodMsg name).toList ∧
      (∀ r ∈ codemodNames, r.toList <:+: (noSuchCodemodMsg name).toList)) ∧
    (∀ files fs, (mainTop none files fs).errLog =
      ["Codemod failed:", noCodemodArgMsg]) ∧
    (∀ r ∈ codemodNames, r.toList <:+: noCodemodArgMsg.toList) := by
  refine ⟨?_, fun files fs => rfl, ?_⟩
  · intro name hname
    refine ⟨?_, ?_, ?_⟩
    · intro fp source pf hp
      unfold transformFile
      rw [hp, hname]
    · refine ⟨"No such codemod: ".toList,
        (". Valid codemod names: " ++
          String.intercalate ", " codemodNames ++ ".").toList, ?_⟩
      simp [noSuchCodemodMsg, String.toList, List.append_assoc]
    · intro r hr
      have hr2 : r = "react-to-star-import" := by
        simpa [codemodNames, codemods] using hr
      subst hr2
      refine ⟨"No such codemod: ".toList ++ name.toList ++
        ". Valid codemod names: ".toList, ".".toList, ?_⟩
      have hinter : String.intercalate ", " codemodNames =
          "react-to-star-import" := rfl
      simp [noSuchCodemodMsg, hinter, String.toList, List.append_assoc]
  · intro r hr
    have hr2 : r = "react-to-star-import" := by
      simpa [codemodNames, codemods] using hr
    subst hr2
    refine ⟨("You must specify a codemod to run as the first command-line argument. Valid codemod names: ").toList,
      ".".toList, ?_⟩
    have hinter : String.intercalate ", " codemodNames =
        "react-to-star-import" := rfl
    simp [noCodemodArgMsg, hinter, String.toList, List.append_assoc]

theorem c9_unknown_transform_diagnostics_witness :
    lookupCodemod "nope" = none ∧
    transformFile "nope" "file.ts" ("".toList) =
      .error (.generic (noSuchCodemodMsg "nope")) ∧
    "nope".toList <:+: (noSuchCodemodMsg "nope").toList ∧
    "react-to-star-import".toList <:+: noCodemodArgMsg.toList := by
  have h := c9_unknown_transform_diagnostics
  have h1 := h.1 "nope" rfl
  exact ⟨rfl, h1.1 "file.ts" "".toList ⟨[], []⟩ rfl, h1.2.1,
    h.2.2 "react-to-star-import" (by simp [codemodNames, codemods])⟩

/-! ### Where the transform-name lookup actually happens (C6) -/

theorem c6_upfront_validation_counterexample :
    ((runFiles "nope" ["b.ts"] sampleFS []).2.2).map RunError.isParseFailure =
      some true ∧
    (runFiles "nope" ["b.ts"] sampleFS []).2.2 ≠
      some (.generic (noSuchCodemodMsg "nope")) ∧
    (runFiles "nope" ["b.ts"] sampleFS []).2.1 =
      ["Transforming: b.ts", "--- Before: ---", "blah"] :=
  ⟨rfl, by decide, rfl⟩

/-- C6 amended: an unknown transform name is detected inside each file's
`transformFile` call, after that file has been read and parsed. No file is
ever written; with no matched files no error is raised at all; if the first
file parses, the unknown-transform error is reported, but if the first file
fails to parse, the reported error is the `ParseError` instead. -/
theorem c6_lookup_after_parse_amended (name : String)
    (hname : lookupCodemod name = none) :
    (∀ files fs log, (runFiles name files fs log).1 = fs) ∧
    (∀ fs log, (runFiles name ([] : List String) fs log).2.2 = none) ∧
    (∀ f rest fs log src pf, FS.read fs f = some src →
      parseFile f src = .ok pf →
      (runFiles name (f :: rest) fs log).2.2 =
        some (.generic (noSuchCodemodMsg name))) ∧
    (∀ f rest fs log src e, FS.read fs f = some src →
      parseFile f src = .error e →
      (runFiles name (f :: rest) fs log).2.2 = some (.parseFailure e)) := by
  refine ⟨?_, fun fs log => rfl, ?_, ?_⟩
  · intro files fs log
    cases files with
    | nil => rfl
    | cons f rest =>
      cases hread : fs.read f with
      | none => simp only [runFiles, hread]
      | some src =>
        have htf : ∃ e2, transformFile name f src = .error e2 := by
          unfold transformFile
          cases hp : parseFile f src with
          | error e => exact ⟨.parseFailure e, rfl⟩
          | ok pf =>
            rw [hname]
            exact ⟨.generic (noSuchCodemodMsg name), rfl⟩
        obtain ⟨e2, he2⟩ := htf
        simp only [runFiles, hread, he2]
  · intro f rest fs log src pf hread hp
    have htf : transformFile name f src =
        .error (.generic (noSuchCodemodMsg name)) := by
      unfold transformFile
      rw [hp, hname]
    simp only [runFiles, hread, htf]
  · intro f rest fs log src e hread hp
    have htf : transformFile name f src = .error (.parseFailure e) := by
      unfold transformFile
      rw [hp]
    simp only [runFiles, hread, htf]

theorem c6_lookup_after_parse_amended_witness :
    lookupCodemod "nope" = none ∧
    (runFiles "nope" ["a.ts"] sampleFS []).1 = sampleFS ∧
    (runFiles "nope" ["a.ts"] sampleFS []).2.2 =
      some (.generic (noSuchCodemodMsg "nope")) := by
  have h := c6_lookup_after_parse_amended "nope" rfl
  exact ⟨rfl, h.1 ["a.ts"] sampleFS [],
    h.2.2.1 "a.ts" [] sampleFS [] sampleSource samplePF rfl rfl⟩

/-! ### The runner always writes; there is no dry-run option (C7) -/

theorem c7_dry_run_counterexample :
    (mainTop (some "react-to-star-import") ["a.ts"] sampleFS).fs.read "a.ts" =
      some ("import * as React from \"react\";".toList) ∧
    some ("import * as React from \"react\";".toList) ≠ sampleFS.read "a.ts" :=
  ⟨rfl, by decide⟩

/-- C7 amended: the batch runner exposes no dry-run option. For every file
whose transform succeeds it reports the before/after text and then always
overwrites the file with the printed text; report-only behavior requires
editing the script to remove the write call, as the repository's README
describes. -/
theorem c7_always_writes_amended (name f : String) (rest : List String)
    (fs : FS) (log : List String) (src out : List Char)
    (hread : FS.read fs f = some src)
    (htr : transformFile name f src = .ok out) :
    runFiles name (f :: rest) fs log =
      runFiles name rest (fs.write f out)
        ((log ++ ["Transforming: " ++ f, "--- Before: ---", String.mk src]) ++
          ["--- After: ---", String.mk out, "------"]) ∧
    (fs.write f out).read f = some out := by
  constructor
  · simp only [runFiles, hread, htr]
  · exact read_write_self fs f out

theorem c7_always_writes_amended_witness :
    runFiles "react-to-star-import" (["a.ts"] : List String) sampleFS [] =
      runFiles "react-to-star-import" ([] : List String)
        (sampleFS.write "a.ts" ("import * as React from \"react\";".toList))
        (([] ++ ["Transforming: " ++ "a.ts", "--- Before: ---",
            String.mk sampleSource]) ++
          ["--- After: ---",
            String.mk ("import * as React from \"react\";".toList), "------"]) ∧
    (sampleFS.write "a.ts"
        ("import * as React from \"react\";".toList)).read "a.ts" =
      some ("import * as React from \"react\";".toList) :=
  c7_always_writes_amended "react-to-star-import" "a.ts" [] sampleFS []
    sampleSource ("import * as React from \"react\";".toList) rfl rfl

/-! ### Exit status and reporting (C5) -/

theorem c5_exit_status_counterexample :
    (mainTop (some "react-to-star-import") ["b.ts"] sampleFS).exitCode = 0 ∧
    (mainTop (some "react-to-star-import") ["b.ts"] sampleFS).errLog =
      ["Codemod failed:", "unsupported syntax"] :=
  ⟨rfl, rfl⟩

/-- C5 amended: a successful run prints the `All done!` summary and any
uncaught error is reported as `Codemod failed:` followed by its message and
trace; but the top-level catch swallows the error, so the process
terminates with exit status 0 in every case, failing runs included. -/
theorem c5_reporting_amended (argv2 : Option String) (files : List String)
    (fs : FS) :
    (mainTop argv2 files fs).exitCode = 0 ∧
    ((mainTop argv2 files fs).errLog = [] →
      (mainTop argv2 files fs).stdoutLog.getLast? = some "All done!") ∧
    ((mainTop argv2 files fs).errLog ≠ [] →
      ∃ m, (mainTop argv2 files fs).errLog = ["Codemod failed:", m]) := by
  cases argv2 with
  | none =>
    refine ⟨rfl, ?_, ?_⟩
    · intro h
      exact absurd h (by simp [mainTop])
    · intro h
      exact ⟨noCodemodArgMsg, rfl⟩
  | some name =>
    rcases hrun : runFiles name files fs ["--- Starting codemod run. ---"]
      with ⟨fs1, log1, o⟩
    have hm : mainTop (some name) files fs =
        (match runFiles name files fs ["--- Starting codemod run. ---"] with
         | (fs2, log2, none) =>
           ⟨fs2, 0, log2 ++ ["All done!"], []⟩
         | (fs2, log2, some e) =>
           ⟨fs2, 0, log2, ["Codemod failed:", RunError.message e]⟩) := rfl
    rw [hm, hrun]
    cases o with
    | none =>
      refine ⟨rfl, ?_, ?_⟩
      · intro h
        exact List.getLast?_concat _
      · intro h
        exact absurd rfl h
    | some e =>
      refine ⟨rfl, ?_, ?_⟩
      · intro h
        exact absurd h (by simp)
      · intro h
        exact ⟨RunError.message e, rfl⟩

theorem c5_reporting_amended_witness :
    (mainTop none [] []).exitCode = 0 ∧
    ∃ m, (mainTop none [] []).errLog = ["Codemod failed:", m] :=
  ⟨(c5_reporting_amended none [] []).1,
   (c5_reporting_amended none [] []).2.2 (by decide)⟩
